import Mathlib

/-!
Shallow embedding of `img2excel.py` (luoyoucode/img2excel): the color
quantizer, the Excel size validator, and the conversion worker with its
capacity-bounded style cache and nearest-color fallback.  Machine
integers are modelled as `Nat` (Python ints are unbounded; pixel
channels are 8-bit since the image is converted with `convert("RGB")`).
Python's `ZeroDivisionError` on `processed % (total_pixels // 200)` is
modelled explicitly: the worker's exception handler turns it into a
single error message.  Queue messages, cell fills and the final save are
reified as data so that runs can be evaluated and reasoned about.
-/

/-- Model of `ColorQuantizer.quantize_color`: `shift = 8 - bits`, each channel
mapped independently to `(c >> shift) << shift`. -/
def quantize_color (rgb : Nat × Nat × Nat) (bits : Nat) : Nat × Nat × Nat :=
  let shift := 8 - bits
  (rgb.1 >>> shift <<< shift, rgb.2.1 >>> shift <<< shift, rgb.2.2 >>> shift <<< shift)

/-- Constant `ExcelSizeValidator.MAX_STYLES`. -/
def MAX_STYLES : Nat := 64000

/-- Constant `ExcelSizeValidator.MAX_DIMENSIONS` = (max rows, max cols). -/
def MAX_DIMENSIONS : Nat × Nat := (1048576, 16384)

/-- Model of `ExcelSizeValidator.validate_size`, with the class constants
`MAX_DIMENSIONS` passed explicitly (the spec requires the ceilings to be
configuration).  Checks height first, then width, exactly as the code. -/
def validate_size_with (dims : Nat × Nat) (width height : Nat) : Bool × String :=
  if height > dims.1 then
    (false, "图片高度(" ++ toString height ++ ")超过Excel最大行数限制(" ++ toString dims.1 ++ ")")
  else if width > dims.2 then
    (false, "图片宽度(" ++ toString width ++ ")超过Excel最大列数限制(" ++ toString dims.2 ++ ")")
  else (true, "")

/-- Model of `ExcelSizeValidator.validate_size` with the actual class constants. -/
def validate_size (width height : Nat) : Bool × String :=
  validate_size_with MAX_DIMENSIONS width height

/-- Uppercase hex digit, as produced by Python's `{c:02X}` for a nibble. -/
def hexDigit (n : Nat) : Char :=
  if n < 10 then Char.ofNat (48 + n) else Char.ofNat (55 + n)

/-- Two-digit uppercase hex rendering of an 8-bit value, Python `{c:02X}`
(pixel channels are below 256, where this agrees with Python). -/
def toHex2 (n : Nat) : String :=
  String.mk [hexDigit (n / 16), hexDigit (n % 16)]

/-- The cache key `f"FF{r:02X}{g:02X}{b:02X}"` built in the worker. -/
def hexColor (rgb : Nat × Nat × Nat) : String :=
  "FF" ++ toHex2 rgb.1 ++ toHex2 rgb.2.1 ++ toHex2 rgb.2.2

/-- Value of one hex character, as by Python `int(_, 16)` (upper or
lower case); other characters never occur in the worker's keys. -/
def hexCharVal (c : Char) : Nat :=
  if 48 ≤ c.toNat ∧ c.toNat ≤ 57 then c.toNat - 48
  else if 65 ≤ c.toNat ∧ c.toNat ≤ 70 then c.toNat - 55
  else if 97 ≤ c.toNat ∧ c.toNat ≤ 102 then c.toNat - 87
  else 0

/-- Value of a two-character hex slice, Python `int(h[i:i+2], 16)`. -/
def hexPairVal (l : List Char) : Nat :=
  match l with
  | a :: b :: _ => 16 * hexCharVal a + hexCharVal b
  | _ => 0

/-- Function `hex_to_rgb` inside `color_distance`: decodes positions 2..8 of the
`FFRRGGBB` key back to an RGB triple. -/
def hex_to_rgb (h : String) : Nat × Nat × Nat :=
  (hexPairVal (h.toList.drop 2), hexPairVal (h.toList.drop 4), hexPairVal (h.toList.drop 6))

/-- Model of `ImageToExcelConverter.color_distance`: squared Euclidean RGB
distance between two hex keys (`sum((a - b) ** 2 ...)` over ℤ). -/
def color_distance (h1 h2 : String) : Int :=
  let a := hex_to_rgb h1
  let b := hex_to_rgb h2
  ((a.1 : Int) - (b.1 : Int)) ^ 2 + ((a.2.1 : Int) - (b.2.1 : Int)) ^ 2
    + ((a.2.2 : Int) - (b.2.2 : Int)) ^ 2

/-- One comparison step of Python's `min(..., key=f)`: keeps the earlier
element on ties, so the first minimal element wins. -/
def pyStep (f : String → Int) (best k : String) : String :=
  if f k < f best then k else best

/-- Python `min(l, key=f)` on a list of keys.  Python raises on an empty
list; the worker only calls this with a saturated (hence nonempty)
cache, so the `[]` case is unreachable there. -/
def pyMin (f : String → Int) : List String → String
  | [] => ""
  | x :: xs => xs.foldl (pyStep f) x

/-- An `openpyxl` `PatternFill` as constructed by the worker. -/
structure Fill where
  start_color : String
  end_color : String
  fill_type : String
deriving DecidableEq

/-- The fill `PatternFill(start_color=h, end_color=h, fill_type="solid")`. -/
def mkFill (h : String) : Fill :=
  ⟨h, h, "solid"⟩

/-- A message put on the worker's queue.  Progress percentages are
floats in Python, modelled as exact rationals. -/
inductive Msg where
  | progress (percent : ℚ)
  | warning (text : String)
  | success (path : String) (style_count : Nat)
  | error (text : String)
deriving DecidableEq

/-- One colored spreadsheet cell: `sheet.cell(row=y+1, column=x+1).fill = ...`. -/
structure Cell where
  row : Nat
  col : Nat
  fill : Fill
deriving DecidableEq

/-- The cache-management block (lines 178-192 of the source) for one
quantized color, factored out of the worker loop.  `warned` records
whether the one-time capacity warning is emitted by this call, and
`fellback` is ghost instrumentation marking that the nearest-color
fallback branch ran. -/
structure ResolveOut where
  cache : List (String × Fill)
  style_count : Nat
  warning_shown : Bool
  warned : Bool
  fellback : Bool
  key : String
deriving DecidableEq

/-- Cache resolution `if hex_color not in color_cache: ...` — hit, insert-with-room, or
saturated nearest-color fallback via Python `min` over the cache keys in
insertion order. -/
def resolveColor (maxStyles : Nat) (cache : List (String × Fill)) (style_count : Nat)
    (warning_shown : Bool) (hex : String) : ResolveOut :=
  if (cache.lookup hex).isSome then
    ⟨cache, style_count, warning_shown, false, false, hex⟩
  else if maxStyles ≤ style_count then
    ⟨cache, style_count, true, !warning_shown, true,
      pyMin (fun k => color_distance k hex) (cache.map Prod.fst)⟩
  else
    ⟨cache ++ [(hex, mkFill hex)], style_count + 1, warning_shown, false, false, hex⟩

/-- Cache state threaded through a sequence of resolutions, with a ghost
count of fallback (nearest-color merge) events. -/
structure FoldState where
  cache : List (String × Fill)
  style_count : Nat
  warning_shown : Bool
  fallbacks : Nat
deriving DecidableEq

/-- One resolution applied to a `FoldState`. -/
def resolveStep (maxStyles : Nat) (s : FoldState) (hex : String) : FoldState :=
  let r := resolveColor maxStyles s.cache s.style_count s.warning_shown hex
  ⟨r.cache, r.style_count, r.warning_shown, s.fallbacks + (if r.fellback then 1 else 0)⟩

/-- Resolving a sequence of quantized-color keys against an initially
empty cache with capacity `maxStyles`. -/
def foldResolve (maxStyles : Nat) (colors : List String) : FoldState :=
  colors.foldl (resolveStep maxStyles) ⟨[], 0, false, 0⟩

/-- A decoded image: dimensions plus pixel access `pixels[x, y]`. -/
structure Image where
  width : Nat
  height : Nat
  px : Nat → Nat → Nat × Nat × Nat

/-- Worker-loop state: the style cache, counters, flags, the queue
messages emitted so far, the colored cells, a pending exception, and the
saved output path.  `fallbacks` is ghost instrumentation. -/
structure WorkerState where
  cache : List (String × Fill)
  style_count : Nat
  warning_shown : Bool
  processed : Nat
  fallbacks : Nat
  msgs : List Msg
  cells : List Cell
  err : Option String
  saved : Option String
deriving DecidableEq

/-- The worker state before the pixel loop. -/
def initState : WorkerState :=
  ⟨[], 0, false, 0, 0, [], [], none, none⟩

/-- The capacity warning text put on the queue. -/
def warnText : String := "达到样式数量限制，开始合并相似颜色"

/-- Text `str(ZeroDivisionError(...))` as surfaced by the worker's handler. -/
def zeroDivText : String := "integer division or modulo by zero"

/-- The body of the worker's per-pixel loop (lines 170-200): quantize,
resolve a style, color the cell, and at `processed % (total // 200) == 0`
put a progress message — where a total below 200 makes the divisor zero
and Python raises `ZeroDivisionError`, aborting the loop. -/
def pixelStep (bits maxStyles total : Nat) (img : Image) (s : WorkerState)
    (xy : Nat × Nat) : WorkerState :=
  if s.err.isSome then s
  else
    let hex := hexColor (quantize_color (img.px xy.1 xy.2) bits)
    let r := resolveColor maxStyles s.cache s.style_count s.warning_shown hex
    let msgs1 := if r.warned then s.msgs ++ [Msg.warning warnText] else s.msgs
    let fill := (r.cache.lookup r.key).getD (mkFill r.key)
    let cells1 := s.cells ++ [⟨xy.2 + 1, xy.1 + 1, fill⟩]
    let fb1 := s.fallbacks + (if r.fellback then 1 else 0)
    let p1 := s.processed + 1
    if total / 200 = 0 then
      ⟨r.cache, r.style_count, r.warning_shown, p1, fb1,
        msgs1 ++ [Msg.error zeroDivText], cells1, some zeroDivText, none⟩
    else if p1 % (total / 200) = 0 then
      ⟨r.cache, r.style_count, r.warning_shown, p1, fb1,
        msgs1 ++ [Msg.progress ((p1 : ℚ) / (total : ℚ) * 100)], cells1, none, none⟩
    else
      ⟨r.cache, r.style_count, r.warning_shown, p1, fb1, msgs1, cells1, none, none⟩

/-- Loop order `for y in range(height): for x in range(width)` — the row-major
pixel order of the worker loop. -/
def coordsOf (width height : Nat) : List (Nat × Nat) :=
  (List.range height).flatMap (fun y => (List.range width).map (fun x => (x, y)))

/-- Model of `ImageToExcelConverter.conversion_worker` from the decoded image on:
validate the dimensions, run the pixel loop, then save and put the
success message (path plumbing and the upstream file checks are the
caller's collaborators; `maxStyles` is the `MAX_STYLES` class constant
passed explicitly). -/
def conversion_worker_with (bits maxStyles : Nat) (outPath : String) (img : Image) :
    WorkerState :=
  let v := validate_size img.width img.height
  if v.1 then
    let fin := (coordsOf img.width img.height).foldl
      (pixelStep bits maxStyles (img.width * img.height) img) initState
    if fin.err.isSome then fin
    else { fin with msgs := fin.msgs ++ [Msg.success outPath fin.style_count],
                    saved := some outPath }
  else { initState with msgs := [Msg.error v.2], err := some v.2 }

/-- The worker with the actual `MAX_STYLES` constant. -/
def conversion_worker (bits : Nat) (outPath : String) (img : Image) : WorkerState :=
  conversion_worker_with bits MAX_STYLES outPath img

/-- Every intermediate state of the worker's pixel loop, in order. -/
def workerTrace (bits maxStyles : Nat) (img : Image) : List WorkerState :=
  (coordsOf img.width img.height).scanl
    (pixelStep bits maxStyles (img.width * img.height) img) initState

/-- Whether a queue message is a progress notification. -/
def isProgress : Msg → Bool
  | Msg.progress _ => true
  | _ => false

/-- Whether a queue message is the capacity warning. -/
def isWarning : Msg → Bool
  | Msg.warning _ => true
  | _ => false

/-- Whether a queue message is a terminal success. -/
def isSuccess : Msg → Bool
  | Msg.success _ _ => true
  | _ => false

/-- Whether a queue message is a terminal error. -/
def isError : Msg → Bool
  | Msg.error _ => true
  | _ => false

/-- Number of capacity warnings among the emitted messages. -/
def warnCount (l : List Msg) : Nat := l.countP (fun m => isWarning m)

/-- Number of success messages among the emitted messages. -/
def succCount (l : List Msg) : Nat := l.countP (fun m => isSuccess m)

/-- Number of error messages among the emitted messages. -/
def errCount (l : List Msg) : Nat := l.countP (fun m => isError m)

/-- The loop invariant of the worker: the style count mirrors the cache
size and never exceeds the capacity, the count never exceeds the number
of processed pixels, the warning flag mirrors whether a fallback has
happened, exactly `min fallbacks 1` warnings and no success have been
put on the queue, and a fallback forces at least `maxStyles + 1`
processed pixels. -/
def StepInv (maxStyles : Nat) (s : WorkerState) : Prop :=
  s.style_count = s.cache.length ∧
  s.style_count ≤ maxStyles ∧
  s.style_count ≤ s.processed ∧
  (s.warning_shown ↔ 1 ≤ s.fallbacks) ∧
  warnCount s.msgs = min s.fallbacks 1 ∧
  succCount s.msgs = 0 ∧
  (1 ≤ s.fallbacks → maxStyles + 1 ≤ s.processed)

/-- Shifting right then left by `s` clears the low `s` bits. -/
theorem shiftRL_eq_sub_mod (c s : Nat) : c >>> s <<< s = c - c % 2 ^ s := by
  rw [Nat.shiftLeft_eq, Nat.shiftRight_eq_div_pow]
  exact Nat.eq_sub_of_add_eq (Nat.div_add_mod' c (2 ^ s))

/-- The cleared-low-bits operation is idempotent per channel. -/
theorem shiftRL_idem (c s : Nat) : (c >>> s <<< s) >>> s <<< s = c >>> s <<< s := by
  rw [Nat.shiftLeft_eq, Nat.shiftRight_eq_div_pow, Nat.shiftLeft_eq,
    Nat.shiftRight_eq_div_pow, Nat.mul_div_cancel _ (pow_pos (by decide) s)]

theorem pyStep_or (f : String → Int) (a k : String) :
    pyStep f a k = a ∨ pyStep f a k = k := by
  unfold pyStep; split
  · exact Or.inr rfl
  · exact Or.inl rfl

theorem pyStep_le_left (f : String → Int) (a k : String) :
    f (pyStep f a k) ≤ f a := by
  unfold pyStep; split
  · omega
  · omega

theorem pyStep_le_right (f : String → Int) (a k : String) :
    f (pyStep f a k) ≤ f k := by
  unfold pyStep; split
  · omega
  · omega

theorem pyFold_mem (f : String → Int) :
    ∀ (xs : List String) (a : String), xs.foldl (pyStep f) a ∈ a :: xs := by
  intro xs
  induction xs with
  | nil => intro a; simp
  | cons j js ih =>
    intro a
    rw [List.foldl_cons]
    have hm := ih (pyStep f a j)
    rcases pyStep_or f a j with h | h <;> rw [h] at hm ⊢
    · rcases List.mem_cons.mp hm with h1 | h1
      · rw [h1]; exact List.mem_cons_self _ _
      · exact List.mem_cons_of_mem _ (List.mem_cons_of_mem _ h1)
    · rcases List.mem_cons.mp hm with h1 | h1
      · rw [h1]; exact List.mem_cons_of_mem _ (List.mem_cons_self _ _)
      · exact List.mem_cons_of_mem _ (List.mem_cons_of_mem _ h1)

theorem pyFold_le_init (f : String → Int) :
    ∀ (xs : List String) (a : String), f (xs.foldl (pyStep f) a) ≤ f a := by
  intro xs
  induction xs with
  | nil => intro a; simp
  | cons j js ih =>
    intro a
    rw [List.foldl_cons]
    exact le_trans (ih (pyStep f a j)) (pyStep_le_left f a j)

theorem pyFold_le (f : String → Int) :
    ∀ (xs : List String) (a k : String), k ∈ a :: xs → f (xs.foldl (pyStep f) a) ≤ f k := by
  intro xs
  induction xs with
  | nil =>
    intro a k hk
    rcases List.mem_cons.mp hk with h | h
    · rw [h]; simp
    · simp at h
  | cons j js ih =>
    intro a k hk
    rw [List.foldl_cons]
    rcases List.mem_cons.mp hk with h | h
    · rw [h]
      exact le_trans (pyFold_le_init f js (pyStep f a j)) (pyStep_le_left f a j)
    · rcases List.mem_cons.mp h with h' | h'
      · rw [h']
        exact le_trans (pyFold_le_init f js (pyStep f a j)) (pyStep_le_right f a j)
      · exact ih (pyStep f a j) k (List.mem_cons_of_mem _ h')

theorem pyFold_first (f : String → Int) :
    ∀ (xs : List String) (a : String),
      ∃ l1 l2, a :: xs = l1 ++ (xs.foldl (pyStep f) a) :: l2 ∧
        ∀ k ∈ l1, f (xs.foldl (pyStep f) a) < f k := by
  intro xs
  induction xs with
  | nil =>
    intro a
    exact ⟨[], [], by simp, by simp⟩
  | cons j js ih =>
    intro a
    by_cases hj : f j < f a
    · have hstep : pyStep f a j = j := by unfold pyStep; rw [if_pos hj]
      rw [List.foldl_cons, hstep]
      obtain ⟨l1, l2, heq, hlt⟩ := ih j
      refine ⟨a :: l1, l2, by rw [List.cons_append, ← heq], ?_⟩
      intro k hk
      rcases List.mem_cons.mp hk with h | h
      · subst h
        exact lt_of_le_of_lt (pyFold_le_init f js j) hj
      · exact hlt k h
    · have hstep : pyStep f a j = a := by unfold pyStep; rw [if_neg hj]
      rw [List.foldl_cons, hstep]
      obtain ⟨l1, l2, heq, hlt⟩ := ih a
      cases l1 with
      | nil =>
        rw [List.nil_append] at heq
        injection heq with h1 h2
        refine ⟨[], j :: js, ?_, by simp⟩
        rw [List.nil_append, ← h1]
      | cons b t =>
        rw [List.cons_append] at heq
        injection heq with h1 h2
        refine ⟨a :: j :: t, l2, ?_, ?_⟩
        · conv_lhs => rw [h2]
          simp
        · intro k hk
          have hma : f (js.foldl (pyStep f) a) < f a := by
            have := hlt b (List.mem_cons_self b t)
            rw [← h1] at this
            exact this
          rcases List.mem_cons.mp hk with h | h
          · subst h; exact hma
          · rcases List.mem_cons.mp h with h' | h'
            · subst h'
              exact lt_of_lt_of_le hma (le_of_not_lt hj)
            · exact hlt k (List.mem_cons_of_mem _ h')

/-- Full specification of Python `min(l, key=f)` on a nonempty list:
the result is in the list, its key is minimal, and every element
strictly before it in the list has a strictly larger key (first minimal
element wins). -/
theorem pyMin_spec (f : String → Int) (l : List String) (h : l ≠ []) :
    pyMin f l ∈ l ∧ (∀ k ∈ l, f (pyMin f l) ≤ f k) ∧
      ∃ l1 l2, l = l1 ++ pyMin f l :: l2 ∧ ∀ k ∈ l1, f (pyMin f l) < f k := by
  cases l with
  | nil => exact absurd rfl h
  | cons x xs =>
    exact ⟨pyFold_mem f xs x, fun k hk => pyFold_le f xs x k hk, pyFold_first f xs x⟩

theorem resolveColor_hit (maxStyles : Nat) (cache : List (String × Fill)) (sc : Nat)
    (ws : Bool) (hex : String) (h : (cache.lookup hex).isSome) :
    resolveColor maxStyles cache sc ws hex = ⟨cache, sc, ws, false, false, hex⟩ := by
  unfold resolveColor; rw [if_pos h]

theorem resolveColor_insert (maxStyles : Nat) (cache : List (String × Fill)) (sc : Nat)
    (ws : Bool) (hex : String) (h : cache.lookup hex = none) (hsc : sc < maxStyles) :
    resolveColor maxStyles cache sc ws hex
      = ⟨cache ++ [(hex, mkFill hex)], sc + 1, ws, false, false, hex⟩ := by
  unfold resolveColor
  rw [if_neg (by rw [h]; simp), if_neg (by omega)]

theorem resolveColor_fallback (maxStyles : Nat) (cache : List (String × Fill)) (sc : Nat)
    (ws : Bool) (hex : String) (h : cache.lookup hex = none) (hsc : maxStyles ≤ sc) :
    resolveColor maxStyles cache sc ws hex
      = ⟨cache, sc, true, !ws, true,
          pyMin (fun k => color_distance k hex) (cache.map Prod.fst)⟩ := by
  unfold resolveColor
  rw [if_neg (by rw [h]; simp), if_pos hsc]

/-- Looking a key up past entries that miss it. -/
theorem lookup_append_of_none {β : Type} (k : String) (l1 l2 : List (String × β))
    (h : l1.lookup k = none) : (l1 ++ l2).lookup k = l2.lookup k := by
  induction l1 with
  | nil => rfl
  | cons a t ih =>
    rw [List.cons_append]
    simp only [List.lookup] at h ⊢
    cases hk : (k == a.1) with
    | true => rw [hk] at h; simp at h
    | false => rw [hk] at h; exact ih h

/-- A key absent from a list of fresh cache entries is not found. -/
theorem lookup_entries_none (k : String) (cs : List String) (h : k ∉ cs) :
    (cs.map (fun c => (c, mkFill c))).lookup k = none := by
  induction cs with
  | nil => rfl
  | cons c t ih =>
    rw [List.map_cons]
    simp only [List.lookup]
    cases hk : (k == c) with
    | true =>
      exact absurd (by rw [List.mem_cons]; exact Or.inl (by exact beq_iff_eq.mp hk)) h
    | false =>
      exact ih (fun hm => h (List.mem_cons_of_mem _ hm))

/-- Resolving a list of pairwise-distinct colors that are all fresh for
the current cache, while there is room for all of them, inserts each one
in order and triggers no fallback. -/
theorem foldl_resolve_fresh (maxStyles : Nat) :
    ∀ (colors : List String) (s : FoldState),
      colors.Nodup →
      (∀ c ∈ colors, s.cache.lookup c = none) →
      s.style_count = s.cache.length →
      s.cache.length + colors.length ≤ maxStyles →
      colors.foldl (resolveStep maxStyles) s
        = ⟨s.cache ++ colors.map (fun c => (c, mkFill c)),
            s.style_count + colors.length, s.warning_shown, s.fallbacks⟩ := by
  intro colors
  induction colors with
  | nil =>
    intro s _ _ _ _
    simp
  | cons c cs ih =>
    intro s hnd hfresh hsc hroom
    rw [List.foldl_cons]
    have hstep : resolveStep maxStyles s c
        = ⟨s.cache ++ [(c, mkFill c)], s.style_count + 1, s.warning_shown, s.fallbacks⟩ := by
      unfold resolveStep
      rw [resolveColor_insert maxStyles s.cache s.style_count s.warning_shown c
        (hfresh c (List.mem_cons_self c cs)) (by simp at hroom; omega)]
      simp
    rw [hstep]
    have hnd' : cs.Nodup := (List.nodup_cons.mp hnd).2
    have hcn : c ∉ cs := (List.nodup_cons.mp hnd).1
    have hfresh' : ∀ c' ∈ cs, (s.cache ++ [(c, mkFill c)]).lookup c' = none := by
      intro c' hc'
      rw [lookup_append_of_none c' s.cache _ (hfresh c' (List.mem_cons_of_mem _ hc'))]
      simp only [List.lookup]
      cases hk : (c' == c) with
      | true => exact absurd (beq_iff_eq.mp hk ▸ hc') hcn
      | false => rfl
    have := ih ⟨s.cache ++ [(c, mkFill c)], s.style_count + 1, s.warning_shown, s.fallbacks⟩
      hnd' hfresh' (by simp [hsc]) (by simp at hroom ⊢; omega)
    rw [this]
    simp
    omega

@[simp] theorem warnCount_append (l1 l2 : List Msg) :
    warnCount (l1 ++ l2) = warnCount l1 + warnCount l2 :=
  List.countP_append _ l1 l2

@[simp] theorem succCount_append (l1 l2 : List Msg) :
    succCount (l1 ++ l2) = succCount l1 + succCount l2 :=
  List.countP_append _ l1 l2

@[simp] theorem errCount_append (l1 l2 : List Msg) :
    errCount (l1 ++ l2) = errCount l1 + errCount l2 :=
  List.countP_append _ l1 l2

@[simp] theorem warnCount_warning (t : String) : warnCount [Msg.warning t] = 1 := rfl

@[simp] theorem warnCount_progress (q : ℚ) : warnCount [Msg.progress q] = 0 := rfl

@[simp] theorem warnCount_error (t : String) : warnCount [Msg.error t] = 0 := rfl

@[simp] theorem succCount_warning (t : String) : succCount [Msg.warning t] = 0 := rfl

@[simp] theorem succCount_progress (q : ℚ) : succCount [Msg.progress q] = 0 := rfl

@[simp] theorem succCount_error (t : String) : succCount [Msg.error t] = 0 := rfl

@[simp] theorem succCount_success (p : String) (n : Nat) : succCount [Msg.success p n] = 1 := rfl

@[simp] theorem warnCount_nil : warnCount [] = 0 := rfl

@[simp] theorem succCount_nil : succCount [] = 0 := rfl

@[simp] theorem errCount_nil : errCount [] = 0 := rfl

@[simp] theorem warnCount_cons_warning (t : String) (l : List Msg) :
    warnCount (Msg.warning t :: l) = warnCount l + 1 := by
  simp [warnCount, List.countP_cons, isWarning]

@[simp] theorem warnCount_cons_progress (q : ℚ) (l : List Msg) :
    warnCount (Msg.progress q :: l) = warnCount l := by
  simp [warnCount, List.countP_cons, isWarning]

@[simp] theorem warnCount_cons_error (t : String) (l : List Msg) :
    warnCount (Msg.error t :: l) = warnCount l := by
  simp [warnCount, List.countP_cons, isWarning]

@[simp] theorem warnCount_cons_success (p : String) (n : Nat) (l : List Msg) :
    warnCount (Msg.success p n :: l) = warnCount l := by
  simp [warnCount, List.countP_cons, isWarning]

@[simp] theorem succCount_cons_warning (t : String) (l : List Msg) :
    succCount (Msg.warning t :: l) = succCount l := by
  simp [succCount, List.countP_cons, isSuccess]

@[simp] theorem succCount_cons_progress (q : ℚ) (l : List Msg) :
    succCount (Msg.progress q :: l) = succCount l := by
  simp [succCount, List.countP_cons, isSuccess]

@[simp] theorem succCount_cons_error (t : String) (l : List Msg) :
    succCount (Msg.error t :: l) = succCount l := by
  simp [succCount, List.countP_cons, isSuccess]

@[simp] theorem succCount_cons_success (p : String) (n : Nat) (l : List Msg) :
    succCount (Msg.success p n :: l) = succCount l + 1 := by
  simp [succCount, List.countP_cons, isSuccess]

/-- Structural facts about one cache resolution, for any starting state
satisfying the cache invariant. -/
theorem resolveColor_inv (m : Nat) (cache : List (String × Fill)) (sc : Nat) (ws : Bool)
    (hex : String) (h1 : sc = cache.length) (h2 : sc ≤ m) :
    (resolveColor m cache sc ws hex).style_count
        = (resolveColor m cache sc ws hex).cache.length ∧
    (resolveColor m cache sc ws hex).style_count ≤ m ∧
    sc ≤ (resolveColor m cache sc ws hex).style_count ∧
    (resolveColor m cache sc ws hex).style_count ≤ sc + 1 ∧
    ((resolveColor m cache sc ws hex).warning_shown
        ↔ (ws = true ∨ (resolveColor m cache sc ws hex).fellback = true)) ∧
    ((resolveColor m cache sc ws hex).warned = true
        ↔ ((resolveColor m cache sc ws hex).fellback = true ∧ ws = false)) ∧
    ((resolveColor m cache sc ws hex).fellback = true → m ≤ sc) ∧
    ((resolveColor m cache sc ws hex).cache = cache ∨
      (resolveColor m cache sc ws hex).cache = cache ++ [(hex, mkFill hex)]) := by
  unfold resolveColor
  split_ifs with hhit hsat
  · simp [h1]
    omega
  · cases ws <;> simp [h1] <;> omega
  · simp [h1]
    omega
/-- Shape of one pixel step when no exception is pending: the cache
fields follow `resolveColor`, exactly one cell is appended, `processed`
increments, the appended messages contain one more warning iff
`resolveColor` warned and never a success, and an exception arises
exactly when the progress divisor `total / 200` is zero. -/
theorem pixelStep_shape (bits m total : Nat) (img : Image) (s : WorkerState)
    (xy : Nat × Nat) (he : s.err = none) :
    ∃ (msgs2 : List Msg) (cl : Cell) (errv : Option String),
      pixelStep bits m total img s xy =
        ⟨(resolveColor m s.cache s.style_count s.warning_shown
            (hexColor (quantize_color (img.px xy.1 xy.2) bits))).cache,
          (resolveColor m s.cache s.style_count s.warning_shown
            (hexColor (quantize_color (img.px xy.1 xy.2) bits))).style_count,
          (resolveColor m s.cache s.style_count s.warning_shown
            (hexColor (quantize_color (img.px xy.1 xy.2) bits))).warning_shown,
          s.processed + 1,
          s.fallbacks + (if (resolveColor m s.cache s.style_count s.warning_shown
            (hexColor (quantize_color (img.px xy.1 xy.2) bits))).fellback then 1 else 0),
          msgs2, s.cells ++ [cl], errv, none⟩ ∧
      warnCount msgs2 = warnCount s.msgs
        + (if (resolveColor m s.cache s.style_count s.warning_shown
            (hexColor (quantize_color (img.px xy.1 xy.2) bits))).warned then 1 else 0) ∧
      succCount msgs2 = succCount s.msgs ∧
      cl.row = xy.2 + 1 ∧
      cl.col = xy.1 + 1 ∧
      (total / 200 ≠ 0 → errv = none) ∧
      (total / 200 = 0 → errv = some zeroDivText) := by
  unfold pixelStep
  rw [if_neg (by rw [he]; simp)]
  simp only []
  split_ifs <;>
    exact ⟨_, _, _, rfl, by simp, by simp, rfl, rfl,
      by intro hc; first | rfl | simp_all,
      by intro hc; first | rfl | simp_all⟩

/-- One pixel step preserves the worker-loop invariant. -/
theorem pixelStep_inv (bits m total : Nat) (img : Image) (s : WorkerState) (xy : Nat × Nat)
    (h : StepInv m s) : StepInv m (pixelStep bits m total img s xy) := by
  obtain ⟨h1, h2, h3, h4, h5, h6, h7⟩ := h
  cases he : s.err with
  | some e =>
    unfold pixelStep
    rw [if_pos (by rw [he]; rfl)]
    exact ⟨h1, h2, h3, h4, h5, h6, h7⟩
  | none =>
    obtain ⟨msgs2, cl, errv, heq, hw, hs, _, _, _, _⟩ := pixelStep_shape bits m total img s xy he
    rw [heq]
    obtain ⟨r1, r2, r3, r4, r5, r6, r7, r8⟩ :=
      resolveColor_inv m s.cache s.style_count s.warning_shown
        (hexColor (quantize_color (img.px xy.1 xy.2) bits)) h1 h2
    refine ⟨r1, r2, ?_, ?_, ?_, ?_, ?_⟩
    · show _ ≤ s.processed + 1
      exact le_trans r4 (by omega)
    · show _ = true ↔ 1 ≤ s.fallbacks + _
      by_cases hfb : (resolveColor m s.cache s.style_count s.warning_shown
          (hexColor (quantize_color (img.px xy.1 xy.2) bits))).fellback = true
      · rw [if_pos hfb]
        exact ⟨fun _ => by omega, fun _ => r5.mpr (Or.inr hfb)⟩
      · rw [if_neg hfb]
        refine ⟨fun hws => ?_, fun hge => r5.mpr (Or.inl (h4.mpr (by omega)))⟩
        rcases r5.mp hws with hx | hx
        · have := h4.mp hx
          omega
        · exact absurd hx hfb
    · show warnCount msgs2 = min (s.fallbacks + _) 1
      rw [hw, h5]
      by_cases hw1 : (resolveColor m s.cache s.style_count s.warning_shown
          (hexColor (quantize_color (img.px xy.1 xy.2) bits))).warned = true
      · rw [if_pos hw1]
        obtain ⟨hfb1, hws0⟩ := r6.mp hw1
        have hfb0 : s.fallbacks = 0 := by
          by_contra hne
          have hx : s.warning_shown = true := h4.mpr (by omega)
          rw [hx] at hws0
          cases hws0
        rw [if_pos hfb1, hfb0]
        omega
      · rw [if_neg hw1]
        by_cases hfb1 : (resolveColor m s.cache s.style_count s.warning_shown
            (hexColor (quantize_color (img.px xy.1 xy.2) bits))).fellback = true
        · rw [if_pos hfb1]
          have hwst : s.warning_shown = true := by
            by_contra hh
            exact hw1 (r6.mpr ⟨hfb1, by revert hh; cases s.warning_shown <;> simp⟩)
          have := h4.mp hwst
          omega
        · rw [if_neg hfb1]
          omega
    · show succCount msgs2 = 0
      rw [hs]
      exact h6
    · show 1 ≤ s.fallbacks + _ → m + 1 ≤ s.processed + 1
      intro hge
      by_cases hfb1 : (resolveColor m s.cache s.style_count s.warning_shown
          (hexColor (quantize_color (img.px xy.1 xy.2) bits))).fellback = true
      · have := r7 hfb1
        omega
      · rw [if_neg hfb1] at hge
        have := h7 (by omega)
        omega


/-- The invariant holds after folding any pixel list. -/
theorem foldl_pixelStep_inv (bits m total : Nat) (img : Image) :
    ∀ (l : List (Nat × Nat)) (s : WorkerState), StepInv m s →
      StepInv m (l.foldl (pixelStep bits m total img) s) := by
  intro l
  induction l with
  | nil => intro s h; exact h
  | cons a t ih =>
    intro s h
    rw [List.foldl_cons]
    exact ih _ (pixelStep_inv bits m total img s a h)

/-- The invariant holds at every intermediate state of the loop. -/
theorem scanl_pixelStep_inv (bits m total : Nat) (img : Image) :
    ∀ (l : List (Nat × Nat)) (s : WorkerState), StepInv m s →
      ∀ t ∈ List.scanl (pixelStep bits m total img) s l, StepInv m t := by
  intro l
  induction l with
  | nil =>
    intro s h t ht
    rw [List.scanl_nil] at ht
    rcases List.mem_singleton.mp ht with rfl
    exact h
  | cons a rest ih =>
    intro s h t ht
    rw [List.scanl_cons] at ht
    rcases List.mem_cons.mp (by simpa using ht) with rfl | hmem
    · exact h
    · exact ih _ (pixelStep_inv bits m total img s a h) t hmem

/-- A pending exception freezes the loop: remaining pixels are skipped. -/
theorem foldl_err_frozen (bits m total : Nat) (img : Image) :
    ∀ (l : List (Nat × Nat)) (s : WorkerState), s.err.isSome →
      l.foldl (pixelStep bits m total img) s = s := by
  intro l
  induction l with
  | nil => intro s _; rfl
  | cons a t ih =>
    intro s h
    rw [List.foldl_cons]
    have hstep : pixelStep bits m total img s a = s := by
      unfold pixelStep; rw [if_pos h]
    rw [hstep]
    exact ih s h

/-- With a nonzero progress divisor the loop never raises, and every
pixel is processed. -/
theorem foldl_no_err (bits m total : Nat) (img : Image) (hz : total / 200 ≠ 0) :
    ∀ (l : List (Nat × Nat)) (s : WorkerState), s.err = none →
      (l.foldl (pixelStep bits m total img) s).err = none ∧
      (l.foldl (pixelStep bits m total img) s).processed = s.processed + l.length := by
  intro l
  induction l with
  | nil => intro s h; exact ⟨h, by simp⟩
  | cons a t ih =>
    intro s h
    rw [List.foldl_cons]
    obtain ⟨msgs2, cl, errv, heq, _, _, _, _, h4, _⟩ := pixelStep_shape bits m total img s a h
    have herr : (pixelStep bits m total img s a).err = none := by rw [heq]; exact h4 hz
    have hproc : (pixelStep bits m total img s a).processed = s.processed + 1 := by rw [heq]
    obtain ⟨ih1, ih2⟩ := ih (pixelStep bits m total img s a) herr
    refine ⟨ih1, ?_⟩
    rw [ih2, hproc, List.length_cons]
    omega

/-- The number of processed pixels is bounded by the pixels seen. -/
theorem foldl_processed_le (bits m total : Nat) (img : Image) :
    ∀ (l : List (Nat × Nat)) (s : WorkerState),
      (l.foldl (pixelStep bits m total img) s).processed ≤ s.processed + l.length := by
  intro l
  induction l with
  | nil => intro s; simp
  | cons a t ih =>
    intro s
    rw [List.foldl_cons]
    cases he : s.err with
    | some e =>
      have hstep : pixelStep bits m total img s a = s := by
        unfold pixelStep; rw [if_pos (by rw [he]; rfl)]
      rw [hstep]
      exact le_trans (ih s) (by simp)
    | none =>
      obtain ⟨msgs2, cl, errv, heq, _, _, _, _, _, _⟩ := pixelStep_shape bits m total img s a he
      have hproc : (pixelStep bits m total img s a).processed = s.processed + 1 := by rw [heq]
      calc (t.foldl (pixelStep bits m total img) (pixelStep bits m total img s a)).processed
          ≤ (pixelStep bits m total img s a).processed + t.length := ih _
        _ = s.processed + (a :: t).length := by rw [hproc, List.length_cons]; omega

/-- The pixel loop visits exactly `width * height` pixels. -/
theorem coordsOf_length (w h : Nat) : (coordsOf w h).length = w * h := by
  induction h with
  | zero => rfl
  | succ h' ih =>
    unfold coordsOf at ih ⊢
    rw [List.range_succ, List.flatMap_append, List.length_append, ih]
    simp [Nat.mul_succ]

/-- A nonempty image's pixel list starts at pixel (0, 0). -/
theorem coordsOf_cons (w h : Nat) (hw : 0 < w) (hh : 0 < h) :
    ∃ t, coordsOf w h = (0, 0) :: t := by
  obtain ⟨w', rfl⟩ := Nat.exists_eq_succ_of_ne_zero (Nat.pos_iff_ne_zero.mp hw)
  obtain ⟨h', rfl⟩ := Nat.exists_eq_succ_of_ne_zero (Nat.pos_iff_ne_zero.mp hh)
  unfold coordsOf
  rw [List.range_succ_eq_map, List.flatMap_cons, List.range_succ_eq_map, List.map_cons]
  exact ⟨_, rfl⟩

/-- One step appends a new cache entry or leaves the cache unchanged. -/
theorem resolveColor_cache_or (m : Nat) (cache : List (String × Fill)) (sc : Nat)
    (ws : Bool) (hex : String) :
    (resolveColor m cache sc ws hex).cache = cache ∨
      (resolveColor m cache sc ws hex).cache = cache ++ [(hex, mkFill hex)] := by
  unfold resolveColor
  split_ifs <;> simp

/-- Each pixel step leaves the style cache unchanged or appends exactly
one entry; entries are never removed. -/
theorem pixelStep_cache_or (bits m total : Nat) (img : Image) (s : WorkerState)
    (xy : Nat × Nat) :
    (pixelStep bits m total img s xy).cache = s.cache ∨
      ∃ e, (pixelStep bits m total img s xy).cache = s.cache ++ [e] := by
  cases he : s.err with
  | some e =>
    have hstep : pixelStep bits m total img s xy = s := by
      unfold pixelStep; rw [if_pos (by rw [he]; rfl)]
    rw [hstep]
    exact Or.inl rfl
  | none =>
    obtain ⟨msgs2, cl, errv, heq, _, _, _, _, _, _⟩ := pixelStep_shape bits m total img s xy he
    rw [heq]
    rcases resolveColor_cache_or m s.cache s.style_count s.warning_shown
        (hexColor (quantize_color (img.px xy.1 xy.2) bits)) with hc | hc
    · exact Or.inl hc
    · exact Or.inr ⟨_, hc⟩

/-- If every step of a fold relates a state to its successor, the whole
scan is a chain. -/
theorem chain'_scanl {α β : Type} (R : β → β → Prop) (f : β → α → β)
    (hf : ∀ s a, R s (f s a)) :
    ∀ (l : List α) (s : β), List.Chain' R (List.scanl f s l) := by
  intro l
  induction l with
  | nil =>
    intro s
    rw [List.scanl_nil]
    exact List.chain'_singleton s
  | cons a t ih =>
    intro s
    rw [List.scanl_cons, List.singleton_append]
    refine List.chain'_cons'.mpr ⟨?_, ih (f s a)⟩
    intro b hb
    have hhead : (List.scanl f (f s a) t).head? = some (f s a) := by
      cases t
      · rw [List.scanl_nil]; rfl
      · rw [List.scanl_cons]; rfl
    rw [hhead, Option.mem_def, Option.some_inj] at hb
    rw [← hb]
    exact hf s a

/-- With a nonzero progress divisor, the loop appends exactly one
`(row, col)` per pixel, in order, with `row = y + 1` and `col = x + 1`. -/
theorem foldl_cells (bits m total : Nat) (img : Image) (hz : total / 200 ≠ 0) :
    ∀ (l : List (Nat × Nat)) (s : WorkerState), s.err = none →
      (l.foldl (pixelStep bits m total img) s).cells.map (fun c => (c.row, c.col))
        = s.cells.map (fun c => (c.row, c.col)) ++ l.map (fun xy => (xy.2 + 1, xy.1 + 1)) := by
  intro l
  induction l with
  | nil => intro s _; simp
  | cons a t ih =>
    intro s he
    rw [List.foldl_cons]
    obtain ⟨msgs2, cl, errv, heq, _, _, hrow, hcol, h4, _⟩ :=
      pixelStep_shape bits m total img s a he
    have herr : (pixelStep bits m total img s a).err = none := by rw [heq]; exact h4 hz
    have hcells : (pixelStep bits m total img s a).cells = s.cells ++ [cl] := by rw [heq]
    rw [ih (pixelStep bits m total img s a) herr, hcells, List.map_append, List.map_cons]
    rw [List.map_nil, List.map_cons, hrow, hcol]
    simp

/-- With a nonzero divisor, one pixel step appends a progress message
with payload `processed / total * 100` exactly when the new processed
count is a multiple of `total / 200`. -/
theorem pixelStep_progress (bits m total : Nat) (img : Image) (s : WorkerState)
    (xy : Nat × Nat) (he : s.err = none) (hz : total / 200 ≠ 0) :
    (pixelStep bits m total img s xy).msgs.filter (fun x => isProgress x)
      = s.msgs.filter (fun x => isProgress x)
        ++ (if (s.processed + 1) % (total / 200) = 0
            then [Msg.progress (((s.processed + 1 : Nat) : ℚ) / (total : ℚ) * 100)]
            else []) := by
  unfold pixelStep
  rw [if_neg (by rw [he]; simp)]
  simp only []
  split_ifs <;>
    first
    | exact absurd (by assumption) hz
    | simp [List.filter_append, isProgress]

/-- With a nonzero divisor, the progress messages accumulated by the
loop are exactly one per multiple of `total / 200` among the processed
counts, carrying `processed / total * 100`. -/
theorem foldl_progress (bits m total : Nat) (img : Image) (hz : total / 200 ≠ 0) :
    ∀ (l : List (Nat × Nat)) (s : WorkerState), s.err = none →
      (l.foldl (pixelStep bits m total img) s).msgs.filter (fun x => isProgress x)
        = s.msgs.filter (fun x => isProgress x)
          ++ ((List.range' (s.processed + 1) l.length).filter
                (fun p => p % (total / 200) = 0)).map
              (fun p : Nat => Msg.progress ((p : ℚ) / (total : ℚ) * 100)) := by
  intro l
  induction l with
  | nil => intro s _; simp
  | cons a t ih =>
    intro s he
    rw [List.foldl_cons]
    obtain ⟨msgs2, cl, errv, heq, _, _, _, _, h4, _⟩ := pixelStep_shape bits m total img s a he
    have herr : (pixelStep bits m total img s a).err = none := by rw [heq]; exact h4 hz
    have hproc : (pixelStep bits m total img s a).processed = s.processed + 1 := by rw [heq]
    rw [ih (pixelStep bits m total img s a) herr, hproc,
      pixelStep_progress bits m total img s a he hz]
    rw [List.length_cons, List.range'_succ, List.filter_cons]
    by_cases hp : (s.processed + 1) % (total / 200) = 0
    · rw [if_pos hp, if_pos (by simpa using hp), List.map_cons]
      simp
    · rw [if_neg hp, if_neg (by simpa using hp)]
      simp

/-- Dimensions within both ceilings pass validation. -/
theorem validate_size_ok (w h : Nat) (hw : w ≤ 16384) (hh : h ≤ 1048576) :
    validate_size w h = (true, "") := by
  unfold validate_size validate_size_with MAX_DIMENSIONS
  rw [if_neg (by simp; omega), if_neg (by simp; omega)]

/-- On the very first pixel of a run whose progress divisor is zero, the
worker raises `ZeroDivisionError`: one error message, nothing saved. -/
theorem pixelStep_init_zero (bits total : Nat) (img : Image) (xy : Nat × Nat)
    (hz : total / 200 = 0) :
    (pixelStep bits MAX_STYLES total img initState xy).msgs = [Msg.error zeroDivText] ∧
    (pixelStep bits MAX_STYLES total img initState xy).err = some zeroDivText ∧
    (pixelStep bits MAX_STYLES total img initState xy).saved = none ∧
    (pixelStep bits MAX_STYLES total img initState xy).style_count = 1 := by
  unfold pixelStep
  rw [if_neg (by simp [initState])]
  simp only []
  rw [resolveColor_insert MAX_STYLES initState.cache initState.style_count
    initState.warning_shown (hexColor (quantize_color (img.px xy.1 xy.2) bits)) rfl (by decide)]
  rw [if_pos hz]
  exact ⟨rfl, rfl, rfl, rfl⟩

theorem toList_append (a b : String) : (a ++ b).toList = a.toList ++ b.toList := by
  simp [String.toList]

/-- C3: for every 8-bit RGB triple and every `bits ∈ [1,8]`, quantization
computes `shift = 8 - bits` and clears the low `shift` bits of each
channel independently (`(c >> shift) << shift`, i.e. `c - c % 2^shift`);
in particular `(255,255,255)` is unchanged at `bits = 8` and becomes
`(128,128,128)` at `bits = 1`. -/
theorem quantize_shift_rule : ∀ (r g b bits : Nat),
    r < 256 → g < 256 → b < 256 → 1 ≤ bits → bits ≤ 8 →
    quantize_color (r, g, b) bits
        = (r - r % 2 ^ (8 - bits), g - g % 2 ^ (8 - bits), b - b % 2 ^ (8 - bits)) ∧
    quantize_color (255, 255, 255) 8 = (255, 255, 255) ∧
    quantize_color (255, 255, 255) 1 = (128, 128, 128) := by
  intro r g b bits _ _ _ _ _
  refine ⟨?_, by decide, by decide⟩
  unfold quantize_color
  simp only []
  rw [shiftRL_eq_sub_mod, shiftRL_eq_sub_mod, shiftRL_eq_sub_mod]

theorem quantize_shift_rule_witness :
    (255 < 256 ∧ 10 < 256 ∧ 7 < 256 ∧ 1 ≤ 5 ∧ 5 ≤ 8) ∧
    (quantize_color (255, 10, 7) 5
        = (255 - 255 % 2 ^ (8 - 5), 10 - 10 % 2 ^ (8 - 5), 7 - 7 % 2 ^ (8 - 5)) ∧
      quantize_color (255, 255, 255) 8 = (255, 255, 255) ∧
      quantize_color (255, 255, 255) 1 = (128, 128, 128)) :=
  ⟨by decide,
    quantize_shift_rule 255 10 7 5 (by decide) (by decide) (by decide) (by decide) (by decide)⟩

/-- C4: quantization is idempotent at a fixed precision: for every RGB
triple `c` and `bits ∈ [1,8]`,
`quantize_color (quantize_color c bits) bits = quantize_color c bits`. -/
theorem quantize_idempotent : ∀ (c : Nat × Nat × Nat) (bits : Nat), 1 ≤ bits → bits ≤ 8 →
    quantize_color (quantize_color c bits) bits = quantize_color c bits := by
  intro c bits _ _
  obtain ⟨r, g, b⟩ := c
  unfold quantize_color
  simp only []
  rw [shiftRL_idem, shiftRL_idem, shiftRL_idem]

theorem quantize_idempotent_witness :
    (1 ≤ 3 ∧ 3 ≤ 8) ∧
    quantize_color (quantize_color (201, 77, 3) 3) 3 = quantize_color (201, 77, 3) 3 :=
  ⟨by decide, quantize_idempotent (201, 77, 3) 3 (by decide) (by decide)⟩

/-- C7: the dimension validator succeeds iff `height ≤ max_rows` and
`width ≤ max_cols`; otherwise it fails with a message naming the
exceeded dimension together with its value and the ceiling (the height
check runs first); concretely it rejects width 20000 against column
ceiling 16384 with a width-naming message and accepts 100×100 against
the default ceilings. -/
theorem validate_size_spec : ∀ (mr mc w h : Nat),
    (((validate_size_with (mr, mc) w h).1 = true) ↔ (h ≤ mr ∧ w ≤ mc)) ∧
    (mr < h →
      (validate_size_with (mr, mc) w h).1 = false ∧
      List.IsInfix "高度".toList (validate_size_with (mr, mc) w h).2.toList ∧
      List.IsInfix (toString h).toList (validate_size_with (mr, mc) w h).2.toList ∧
      List.IsInfix (toString mr).toList (validate_size_with (mr, mc) w h).2.toList) ∧
    (h ≤ mr → mc < w →
      (validate_size_with (mr, mc) w h).1 = false ∧
      List.IsInfix "宽度".toList (validate_size_with (mr, mc) w h).2.toList ∧
      List.IsInfix (toString w).toList (validate_size_with (mr, mc) w h).2.toList ∧
      List.IsInfix (toString mc).toList (validate_size_with (mr, mc) w h).2.toList) ∧
    validate_size 20000 10 = (false, "图片宽度(20000)超过Excel最大列数限制(16384)") ∧
    validate_size 100 100 = (true, "") := by
  intro mr mc w h
  refine ⟨?_, ?_, ?_, by decide, by decide⟩
  · unfold validate_size_with
    split_ifs with hh hw
    · simp at hh ⊢
      omega
    · simp at hw ⊢
      omega
    · simp at hh hw ⊢
      omega
  · intro hlt
    have hfull : validate_size_with (mr, mc) w h
        = (false, "图片高度(" ++ toString h ++ ")超过Excel最大行数限制(" ++ toString mr ++ ")") := by
      unfold validate_size_with
      rw [if_pos (by simpa using hlt)]
    rw [hfull]
    refine ⟨rfl, ?_, ?_, ?_⟩
    · refine List.IsInfix.trans
        (show List.IsInfix ("高度".toList) (("图片高度(" : String).toList) from
          ⟨"图片".toList, "(".toList, by decide⟩) ?_
      exact ⟨[], (toString h ++ ")超过Excel最大行数限制(" ++ toString mr ++ ")").toList,
        by simp [toList_append]⟩
    · exact ⟨("图片高度(" : String).toList,
        (")超过Excel最大行数限制(" ++ toString mr ++ ")" : String).toList,
        by simp [toList_append]⟩
    · exact ⟨("图片高度(" ++ toString h ++ ")超过Excel最大行数限制(" : String).toList,
        (")" : String).toList, by simp [toList_append]⟩
  · intro hle hlt
    have hfull : validate_size_with (mr, mc) w h
        = (false, "图片宽度(" ++ toString w ++ ")超过Excel最大列数限制(" ++ toString mc ++ ")") := by
      unfold validate_size_with
      rw [if_neg (by simpa using hle), if_pos (by simpa using hlt)]
    rw [hfull]
    refine ⟨rfl, ?_, ?_, ?_⟩
    · refine List.IsInfix.trans
        (show List.IsInfix ("宽度".toList) (("图片宽度(" : String).toList) from
          ⟨"图片".toList, "(".toList, by decide⟩) ?_
      exact ⟨[], (toString w ++ ")超过Excel最大列数限制(" ++ toString mc ++ ")").toList,
        by simp [toList_append]⟩
    · exact ⟨("图片宽度(" : String).toList,
        (")超过Excel最大列数限制(" ++ toString mc ++ ")" : String).toList,
        by simp [toList_append]⟩
    · exact ⟨("图片宽度(" ++ toString w ++ ")超过Excel最大列数限制(" : String).toList,
        (")" : String).toList, by simp [toList_append]⟩

theorem validate_size_spec_witness :
    (10 ≤ 1048576) ∧ (16384 < 20000) ∧
    ((validate_size_with (1048576, 16384) 20000 10).1 = false ∧
      List.IsInfix "宽度".toList (validate_size_with (1048576, 16384) 20000 10).2.toList ∧
      List.IsInfix (toString 20000).toList (validate_size_with (1048576, 16384) 20000 10).2.toList ∧
      List.IsInfix (toString 16384).toList (validate_size_with (1048576, 16384) 20000 10).2.toList) :=
  ⟨by decide, by decide,
    (validate_size_spec 1048576 16384 20000 10).2.2.1 (by decide) (by decide)⟩

/-- C2: when the cache is saturated (size = `MAX_STYLES`, treated as the
configurable capacity) and the quantized color is not a key, resolution
inserts nothing; it returns the existing key minimizing the squared
Euclidean RGB distance to the requested color, ties broken by insertion
order (the first minimal key wins); and after resolving `MAX_STYLES + 1`
distinct colors from empty the cache size is exactly `MAX_STYLES`. -/
theorem resolve_saturated_nearest :
    MAX_STYLES = 64000 ∧
    (∀ (m : Nat) (cache : List (String × Fill)) (ws : Bool) (hex : String),
      0 < m → cache.length = m → cache.lookup hex = none →
      (resolveColor m cache m ws hex).cache = cache ∧
      (resolveColor m cache m ws hex).style_count = m ∧
      (resolveColor m cache m ws hex).key ∈ cache.map Prod.fst ∧
      (∀ k ∈ cache.map Prod.fst,
        color_distance (resolveColor m cache m ws hex).key hex ≤ color_distance k hex) ∧
      (∃ l1 l2, cache.map Prod.fst = l1 ++ (resolveColor m cache m ws hex).key :: l2 ∧
        ∀ k ∈ l1,
          color_distance (resolveColor m cache m ws hex).key hex < color_distance k hex)) ∧
    (∀ (m : Nat) (colors : List String), 0 < m → colors.Nodup → colors.length = m + 1 →
      (foldResolve m colors).cache.length = m) := by
  refine ⟨rfl, ?_, ?_⟩
  · intro m cache ws hex hm hlen hlook
    rw [resolveColor_fallback m cache m ws hex hlook (le_refl m)]
    have hne : cache.map Prod.fst ≠ [] := by
      intro h0
      have hlen0 := congrArg List.length h0
      rw [List.length_map, hlen] at hlen0
      simp at hlen0
      omega
    obtain ⟨hmem, hle, hfirst⟩ :=
      pyMin_spec (fun k => color_distance k hex) (cache.map Prod.fst) hne
    exact ⟨rfl, rfl, hmem, hle, hfirst⟩
  · intro m colors hm hnd hlen
    have hne : colors ≠ [] := by
      intro h0
      rw [h0] at hlen
      simp at hlen
    obtain ⟨cs, c, hcs⟩ : ∃ cs c, colors = cs ++ [c] := by
      rcases List.eq_nil_or_concat colors with h0 | ⟨L, b, hb⟩
      · exact absurd h0 hne
      · exact ⟨L, b, by rw [hb, List.concat_eq_append]⟩
    subst hcs
    have hcs_len : cs.length = m := by
      rw [List.length_append] at hlen
      simp at hlen
      omega
    have hnd_cs : cs.Nodup := hnd.sublist (List.sublist_append_left cs [c])
    have hcn : c ∉ cs :=
      fun hc => (List.disjoint_of_nodup_append hnd) hc (List.mem_singleton_self c)
    unfold foldResolve
    rw [List.foldl_append,
      foldl_resolve_fresh m cs ⟨[], 0, false, 0⟩ hnd_cs (by intro c' _; rfl) rfl
        (by simp [hcs_len])]
    simp only [List.nil_append, Nat.zero_add]
    rw [List.foldl_cons, List.foldl_nil]
    unfold resolveStep
    rw [resolveColor_fallback m (cs.map (fun x => (x, mkFill x))) cs.length false c
      (lookup_entries_none c cs hcn) (by omega)]
    simp [hcs_len]

theorem resolve_saturated_nearest_witness :
    (0 < 2 ∧
      ([("FF000000", mkFill "FF000000"), ("FF100000", mkFill "FF100000")]
        : List (String × Fill)).length = 2 ∧
      ([("FF000000", mkFill "FF000000"), ("FF100000", mkFill "FF100000")]
        : List (String × Fill)).lookup "FFF80000" = none) ∧
    ((resolveColor 2 [("FF000000", mkFill "FF000000"), ("FF100000", mkFill "FF100000")]
        2 false "FFF80000").cache
        = [("FF000000", mkFill "FF000000"), ("FF100000", mkFill "FF100000")] ∧
      (resolveColor 2 [("FF000000", mkFill "FF000000"), ("FF100000", mkFill "FF100000")]
        2 false "FFF80000").style_count = 2 ∧
      (resolveColor 2 [("FF000000", mkFill "FF000000"), ("FF100000", mkFill "FF100000")]
        2 false "FFF80000").key
        ∈ ([("FF000000", mkFill "FF000000"), ("FF100000", mkFill "FF100000")]
            : List (String × Fill)).map Prod.fst ∧
      (∀ k ∈ ([("FF000000", mkFill "FF000000"), ("FF100000", mkFill "FF100000")]
          : List (String × Fill)).map Prod.fst,
        color_distance (resolveColor 2
            [("FF000000", mkFill "FF000000"), ("FF100000", mkFill "FF100000")]
            2 false "FFF80000").key "FFF80000" ≤ color_distance k "FFF80000") ∧
      (∃ l1 l2, ([("FF000000", mkFill "FF000000"), ("FF100000", mkFill "FF100000")]
          : List (String × Fill)).map Prod.fst
          = l1 ++ (resolveColor 2
              [("FF000000", mkFill "FF000000"), ("FF100000", mkFill "FF100000")]
              2 false "FFF80000").key :: l2 ∧
        ∀ k ∈ l1, color_distance (resolveColor 2
            [("FF000000", mkFill "FF000000"), ("FF100000", mkFill "FF100000")]
            2 false "FFF80000").key "FFF80000" < color_distance k "FFF80000")) ∧
    ((0 < 2 ∧ (["FF000000", "FF080000", "FF100000"] : List String).Nodup ∧
      (["FF000000", "FF080000", "FF100000"] : List String).length = 2 + 1) ∧
      (foldResolve 2 ["FF000000", "FF080000", "FF100000"]).cache.length = 2) :=
  ⟨⟨by decide, by decide, by decide⟩,
    resolve_saturated_nearest.2.1 2
      [("FF000000", mkFill "FF000000"), ("FF100000", mkFill "FF100000")] false "FFF80000"
      (by decide) (by decide) (by decide),
    ⟨⟨by decide, by decide, by decide⟩,
      resolve_saturated_nearest.2.2 2 ["FF000000", "FF080000", "FF100000"]
        (by decide) (by decide) (by decide)⟩⟩

theorem stepInv_init (m : Nat) : StepInv m initState :=
  ⟨rfl, Nat.zero_le m, Nat.le_refl 0, by simp [initState], rfl, rfl,
    fun h => absurd h (by decide)⟩

/-- C5: during a conversion the style cache always satisfies
`size ≤ MAX_STYLES` (with the style count mirroring the size), grows
monotonically — each pixel step leaves the cache unchanged or appends
exactly one entry, and entries are never removed — and resolving
`N ≤ capacity` distinct colors from empty yields exactly `N` entries
with zero fallbacks. -/
theorem cache_bounded_monotone :
    MAX_STYLES = 64000 ∧
    (∀ (bits : Nat) (img : Image), ∀ s ∈ workerTrace bits MAX_STYLES img,
      s.cache.length ≤ MAX_STYLES ∧ s.style_count = s.cache.length) ∧
    (∀ (bits : Nat) (img : Image),
      List.Chain' (fun s t => t.cache = s.cache ∨ ∃ e, t.cache = s.cache ++ [e])
        (workerTrace bits MAX_STYLES img)) ∧
    (∀ (m : Nat) (colors : List String), colors.Nodup → colors.length ≤ m →
      (foldResolve m colors).cache.length = colors.length ∧
      (foldResolve m colors).fallbacks = 0) := by
  refine ⟨rfl, ?_, ?_, ?_⟩
  · intro bits img s hs
    obtain ⟨i1, i2, _, _, _, _, _⟩ :=
      scanl_pixelStep_inv bits MAX_STYLES (img.width * img.height) img
        (coordsOf img.width img.height) initState (stepInv_init MAX_STYLES) s hs
    exact ⟨by omega, i1⟩
  · intro bits img
    exact chain'_scanl _ _
      (fun s a => pixelStep_cache_or bits MAX_STYLES (img.width * img.height) img s a)
      (coordsOf img.width img.height) initState
  · intro m colors hnd hle
    unfold foldResolve
    rw [foldl_resolve_fresh m colors ⟨[], 0, false, 0⟩ hnd (by intro c' _; rfl) rfl
      (by simpa using hle)]
    simp

theorem cache_bounded_monotone_witness :
    (initState ∈ workerTrace 5 MAX_STYLES ⟨2, 2, fun x y => (40 * x, 40 * y, 0)⟩ ∧
      (initState.cache.length ≤ MAX_STYLES ∧ initState.style_count = initState.cache.length)) ∧
    (((["FF000000", "FF280000"] : List String).Nodup ∧
        (["FF000000", "FF280000"] : List String).length ≤ 3) ∧
      ((foldResolve 3 ["FF000000", "FF280000"]).cache.length = 2 ∧
        (foldResolve 3 ["FF000000", "FF280000"]).fallbacks = 0)) :=
  ⟨⟨by decide,
      cache_bounded_monotone.2.1 5 ⟨2, 2, fun x y => (40 * x, 40 * y, 0)⟩ initState (by decide)⟩,
    ⟨⟨by decide, by decide⟩,
      cache_bounded_monotone.2.2.2 3 ["FF000000", "FF280000"] (by decide) (by decide)⟩⟩

/-- The worker either fails validation (emitting just that error), or
runs the loop and, when no exception arose, appends the one success
message and saves. -/
theorem conversion_worker_with_cases (bits m : Nat) (outPath : String) (img : Image) :
    (∃ vmsg, validate_size img.width img.height = (false, vmsg) ∧
      conversion_worker_with bits m outPath img
        = { initState with msgs := [Msg.error vmsg], err := some vmsg }) ∨
    ((validate_size img.width img.height).1 = true ∧
      conversion_worker_with bits m outPath img
        = (if ((coordsOf img.width img.height).foldl
              (pixelStep bits m (img.width * img.height) img) initState).err.isSome
           then (coordsOf img.width img.height).foldl
              (pixelStep bits m (img.width * img.height) img) initState
           else { (coordsOf img.width img.height).foldl
                    (pixelStep bits m (img.width * img.height) img) initState with
                  msgs := ((coordsOf img.width img.height).foldl
                      (pixelStep bits m (img.width * img.height) img) initState).msgs
                    ++ [Msg.success outPath ((coordsOf img.width img.height).foldl
                        (pixelStep bits m (img.width * img.height) img) initState).style_count],
                  saved := some outPath })) := by
  unfold conversion_worker_with
  rcases hv : validate_size img.width img.height with ⟨b, vmsg⟩
  cases b
  · exact Or.inl ⟨vmsg, rfl, rfl⟩
  · exact Or.inr ⟨rfl, rfl⟩

/-- C6: in every run the capacity warning count at every point of the
loop, and in the final output, is `min fallbacks 1` — the warning is
emitted on the step that performs the first nearest-color fallback and
never again; and the warning is non-fatal: whenever a fallback happened
(with the real capacity, forcing at least 200 pixels), the run raises no
exception, processes every pixel, and ends with exactly one success. -/
theorem capacity_warning_once :
    MAX_STYLES = 64000 ∧
    (∀ (bits : Nat) (outPath : String) (img : Image),
      conversion_worker bits outPath img = conversion_worker_with bits MAX_STYLES outPath img) ∧
    (∀ (bits m : Nat) (outPath : String) (img : Image), 0 < m →
      (∀ s ∈ workerTrace bits m img, warnCount s.msgs = min s.fallbacks 1) ∧
      warnCount (conversion_worker_with bits m outPath img).msgs
        = min (conversion_worker_with bits m outPath img).fallbacks 1 ∧
      (199 ≤ m → 1 ≤ (conversion_worker_with bits m outPath img).fallbacks →
        (conversion_worker_with bits m outPath img).err = none ∧
        succCount (conversion_worker_with bits m outPath img).msgs = 1 ∧
        (conversion_worker_with bits m outPath img).processed = img.width * img.height)) := by
  refine ⟨rfl, fun _ _ _ => rfl, ?_⟩
  intro bits m outPath img hm
  have htrace : ∀ s ∈ workerTrace bits m img, warnCount s.msgs = min s.fallbacks 1 := by
    intro s hs
    exact (scanl_pixelStep_inv bits m (img.width * img.height) img
      (coordsOf img.width img.height) initState (stepInv_init m) s hs).2.2.2.2.1
  refine ⟨htrace, ?_⟩
  have hinv := foldl_pixelStep_inv bits m (img.width * img.height) img
    (coordsOf img.width img.height) initState (stepInv_init m)
  rcases conversion_worker_with_cases bits m outPath img with ⟨vmsg, _, hw⟩ | ⟨hvt, hw⟩
  · rw [hw]
    refine ⟨rfl, ?_⟩
    intro _ hfb
    have h0 : ({ initState with msgs := [Msg.error vmsg], err := some vmsg }
        : WorkerState).fallbacks = 0 := rfl
    omega
  · obtain ⟨i1, i2, i3, i4, i5, i6, i7⟩ := hinv
    constructor
    · rw [hw]
      by_cases hfe : ((coordsOf img.width img.height).foldl
          (pixelStep bits m (img.width * img.height) img) initState).err.isSome = true
      · rw [if_pos hfe]
        exact i5
      · rw [if_neg hfe]
        show warnCount (_ ++ [Msg.success outPath _]) = _
        rw [warnCount_append]
        simpa using i5
    · intro h199 hfb
      rw [hw] at hfb
      have hfb' : 1 ≤ ((coordsOf img.width img.height).foldl
          (pixelStep bits m (img.width * img.height) img) initState).fallbacks := by
        by_cases hx : ((coordsOf img.width img.height).foldl
            (pixelStep bits m (img.width * img.height) img) initState).err.isSome = true
        · rw [if_pos hx] at hfb
          exact hfb
        · rw [if_neg hx] at hfb
          exact hfb
      have hge := i7 hfb'
      have hle := foldl_processed_le bits m (img.width * img.height) img
        (coordsOf img.width img.height) initState
      rw [coordsOf_length] at hle
      have htot : 200 ≤ img.width * img.height := by
        have : initState.processed = 0 := rfl
        omega
      have hz : img.width * img.height / 200 ≠ 0 :=
        Nat.pos_iff_ne_zero.mp (Nat.div_pos htot (by decide))
      obtain ⟨herr, hproc⟩ := foldl_no_err bits m (img.width * img.height) img hz
        (coordsOf img.width img.height) initState rfl
      rw [hw, if_neg (by rw [herr]; simp)]
      refine ⟨herr, ?_, ?_⟩
      · show succCount (_ ++ [Msg.success outPath _]) = 1
        rw [succCount_append, succCount_success, i6]
      · show ((coordsOf img.width img.height).foldl
            (pixelStep bits m (img.width * img.height) img) initState).processed
          = img.width * img.height
        rw [hproc, coordsOf_length]
        have h0 : initState.processed = 0 := rfl
        omega

theorem capacity_warning_once_witness :
    (0 < 2) ∧
    warnCount (conversion_worker_with 5 2 "out.xlsx" ⟨2, 2, fun x y => (x, y, 0)⟩).msgs
      = min (conversion_worker_with 5 2 "out.xlsx" ⟨2, 2, fun x y => (x, y, 0)⟩).fallbacks 1 :=
  ⟨by decide,
    (capacity_warning_once.2.2 5 2 "out.xlsx" ⟨2, 2, fun x y => (x, y, 0)⟩ (by decide)).2.1⟩

/-- C8: the walker colors cells in row-major order (y outer, x inner)
with `row = y + 1`, `column = x + 1` — proved for every run of at least
200 pixels; but on a 2×2 image the run aborts at the first progress
checkpoint (`4 // 200 = 0` divisor), so only 1 of the 4 claimed cell
assignments is produced: the claim's own 2×2 example fails on the code. -/
theorem walker_row_major :
    coordsOf 2 2 = [(0, 0), (1, 0), (0, 1), (1, 1)] ∧
    (conversion_worker 5 "p.xlsx" ⟨2, 2, fun x y => (100 * x, 100 * y, 0)⟩).cells.map
        (fun c => (c.row, c.col)) = [(1, 1)] ∧
    (∀ (bits : Nat) (outPath : String) (img : Image),
      (validate_size img.width img.height).1 = true →
      200 ≤ img.width * img.height →
      (conversion_worker bits outPath img).cells.map (fun c => (c.row, c.col))
        = (coordsOf img.width img.height).map (fun xy => (xy.2 + 1, xy.1 + 1))) := by
  refine ⟨by decide, by decide, ?_⟩
  intro bits outPath img hv htot
  have hz : img.width * img.height / 200 ≠ 0 :=
    Nat.pos_iff_ne_zero.mp (Nat.div_pos htot (by decide))
  rcases conversion_worker_with_cases bits MAX_STYLES outPath img with ⟨vmsg, hvm, _⟩ | ⟨_, hw⟩
  · rw [hvm] at hv
    simp at hv
  · obtain ⟨herr, _⟩ := foldl_no_err bits MAX_STYLES (img.width * img.height) img hz
      (coordsOf img.width img.height) initState rfl
    unfold conversion_worker
    rw [hw, if_neg (by rw [herr]; simp)]
    show ((coordsOf img.width img.height).foldl
        (pixelStep bits MAX_STYLES (img.width * img.height) img) initState).cells.map _ = _
    have hc := foldl_cells bits MAX_STYLES (img.width * img.height) img hz
      (coordsOf img.width img.height) initState rfl
    rw [hc]
    rfl

theorem walker_row_major_witness :
    ((validate_size 8 25).1 = true ∧ 200 ≤ 8 * 25) ∧
    (conversion_worker 6 "w8.xlsx" ⟨8, 25, fun _ _ => (1, 2, 3)⟩).cells.map
        (fun c => (c.row, c.col))
      = (coordsOf 8 25).map (fun xy => (xy.2 + 1, xy.1 + 1)) :=
  ⟨⟨by decide, by decide⟩,
    walker_row_major.2.2 6 "w8.xlsx" ⟨8, 25, fun _ _ => (1, 2, 3)⟩ (by decide) (by decide)⟩

/-- Any nonempty run of fewer than 200 pixels passes validation, then
raises `ZeroDivisionError` at the first progress checkpoint: the queue
receives exactly the one division error and nothing is saved. -/
theorem worker_small_run (bits : Nat) (outPath : String) (img : Image)
    (hpos : 0 < img.width * img.height) (hsmall : img.width * img.height < 200) :
    (conversion_worker bits outPath img).msgs = [Msg.error zeroDivText] ∧
    (conversion_worker bits outPath img).saved = none := by
  have hwpos : 0 < img.width := by
    rcases Nat.eq_zero_or_pos img.width with h0 | h
    · rw [h0] at hpos; simp at hpos
    · exact h
  have hhpos : 0 < img.height := by
    rcases Nat.eq_zero_or_pos img.height with h0 | h
    · rw [h0] at hpos
      simp at hpos
    · exact h
  have hwle : img.width ≤ 16384 := by
    have := Nat.le_mul_of_pos_right img.width hhpos
    omega
  have hhle : img.height ≤ 1048576 := by
    have := Nat.le_mul_of_pos_left img.height hwpos
    omega
  have hval := validate_size_ok img.width img.height hwle hhle
  have hz : img.width * img.height / 200 = 0 := Nat.div_eq_of_lt hsmall
  obtain ⟨t, hcoords⟩ := coordsOf_cons img.width img.height hwpos hhpos
  obtain ⟨hmsgs1, herr1, hsaved1, _⟩ :=
    pixelStep_init_zero bits (img.width * img.height) img (0, 0) hz
  have hfold : (coordsOf img.width img.height).foldl
      (pixelStep bits MAX_STYLES (img.width * img.height) img) initState
      = pixelStep bits MAX_STYLES (img.width * img.height) img initState (0, 0) := by
    rw [hcoords, List.foldl_cons]
    exact foldl_err_frozen bits MAX_STYLES (img.width * img.height) img t _
      (by rw [herr1]; rfl)
  rcases conversion_worker_with_cases bits MAX_STYLES outPath img with ⟨vmsg, hvm, _⟩ | ⟨_, hw⟩
  · rw [hval] at hvm
    simp at hvm
  · unfold conversion_worker
    rw [hw, hfold, if_pos (by rw [herr1]; rfl)]
    exact ⟨hmsgs1, hsaved1⟩

/-- C9: with the progress divisor `total / 200` nonzero (total ≥ 200),
the run emits exactly one progress notification at every processed count
that is a multiple of `total / 200`, carrying `processed / total * 100`;
but for any image of fewer than 200 pixels the divisor is zero and the
checkpoint raises `ZeroDivisionError` instead — a 10×10 run emits no
progress at all, only the single division error. -/
theorem progress_checkpoints :
    (∀ (bits : Nat) (outPath : String) (img : Image),
      (validate_size img.width img.height).1 = true →
      200 ≤ img.width * img.height →
      (conversion_worker bits outPath img).msgs.filter (fun x => isProgress x)
        = ((List.range' 1 (img.width * img.height)).filter
            (fun p => p % (img.width * img.height / 200) = 0)).map
          (fun p : Nat => Msg.progress ((p : ℚ) / ((img.width * img.height : Nat) : ℚ) * 100))) ∧
    ((conversion_worker 5 "p10.xlsx" ⟨10, 10, fun _ _ => (3, 4, 5)⟩).msgs
        = [Msg.error zeroDivText] ∧
      (conversion_worker 5 "p10.xlsx" ⟨10, 10, fun _ _ => (3, 4, 5)⟩).msgs.filter
        (fun x => isProgress x) = []) := by
  have hsmall := worker_small_run 5 "p10.xlsx" ⟨10, 10, fun _ _ => (3, 4, 5)⟩
    (by decide) (by decide)
  refine ⟨?_, hsmall.1, by rw [hsmall.1]; rfl⟩
  intro bits outPath img hv htot
  have hz : img.width * img.height / 200 ≠ 0 :=
    Nat.pos_iff_ne_zero.mp (Nat.div_pos htot (by decide))
  rcases conversion_worker_with_cases bits MAX_STYLES outPath img with ⟨vmsg, hvm, _⟩ | ⟨_, hw⟩
  · rw [hvm] at hv
    simp at hv
  · obtain ⟨herr, _⟩ := foldl_no_err bits MAX_STYLES (img.width * img.height) img hz
      (coordsOf img.width img.height) initState rfl
    unfold conversion_worker
    rw [hw, if_neg (by rw [herr]; simp)]
    show (((coordsOf img.width img.height).foldl
        (pixelStep bits MAX_STYLES (img.width * img.height) img) initState).msgs
          ++ [Msg.success outPath _]).filter _ = _
    rw [List.filter_append,
      foldl_progress bits MAX_STYLES (img.width * img.height) img hz
        (coordsOf img.width img.height) initState rfl]
    rw [coordsOf_length]
    have h01 : initState.processed + 1 = 1 := rfl
    simp [isProgress, h01, initState]

theorem progress_checkpoints_witness :
    ((validate_size 10 20).1 = true ∧ 200 ≤ 10 * 20) ∧
    (conversion_worker 5 "w200.xlsx" ⟨10, 20, fun _ _ => (9, 9, 9)⟩).msgs.filter
        (fun x => isProgress x)
      = ((List.range' 1 (10 * 20)).filter (fun p => p % (10 * 20 / 200) = 0)).map
          (fun p : Nat => Msg.progress ((p : ℚ) / ((10 * 20 : Nat) : ℚ) * 100)) :=
  ⟨⟨by decide, by decide⟩,
    progress_checkpoints.1 5 "w200.xlsx" ⟨10, 20, fun _ _ => (9, 9, 9)⟩ (by decide) (by decide)⟩

/-- C10: every image with 0 < width × height < 200 pixels passes
validation but dies at the first progress checkpoint, where
`total_pixels // 200` is zero and `processed % 0` raises
`ZeroDivisionError`; the worker's handler surfaces the single error
message, no success is ever emitted, and no output file is written. -/
theorem small_image_zero_div_error : ∀ (bits : Nat) (outPath : String) (img : Image),
    0 < img.width * img.height → img.width * img.height < 200 →
    succCount (conversion_worker bits outPath img).msgs = 0 ∧
    errCount (conversion_worker bits outPath img).msgs = 1 ∧
    (conversion_worker bits outPath img).msgs = [Msg.error zeroDivText] ∧
    (conversion_worker bits outPath img).saved = none := by
  intro bits outPath img h1 h2
  obtain ⟨hm, hs⟩ := worker_small_run bits outPath img h1 h2
  exact ⟨by rw [hm]; rfl, by rw [hm]; rfl, hm, hs⟩

theorem small_image_zero_div_error_witness :
    (0 < (⟨3, 2, fun x y => (x + y, 0, 9)⟩ : Image).width
        * (⟨3, 2, fun x y => (x + y, 0, 9)⟩ : Image).height ∧
      (⟨3, 2, fun x y => (x + y, 0, 9)⟩ : Image).width
        * (⟨3, 2, fun x y => (x + y, 0, 9)⟩ : Image).height < 200) ∧
    (succCount (conversion_worker 4 "w32.xlsx" ⟨3, 2, fun x y => (x + y, 0, 9)⟩).msgs = 0 ∧
      errCount (conversion_worker 4 "w32.xlsx" ⟨3, 2, fun x y => (x + y, 0, 9)⟩).msgs = 1 ∧
      (conversion_worker 4 "w32.xlsx" ⟨3, 2, fun x y => (x + y, 0, 9)⟩).msgs
        = [Msg.error zeroDivText] ∧
      (conversion_worker 4 "w32.xlsx" ⟨3, 2, fun x y => (x + y, 0, 9)⟩).saved = none) :=
  ⟨⟨by decide, by decide⟩,
    small_image_zero_div_error 4 "w32.xlsx" ⟨3, 2, fun x y => (x + y, 0, 9)⟩
      (by decide) (by decide)⟩

/-- C1: on a 1×1 pure-red image with bits = 5 the pixel does quantize to
(248,0,0) and one style is admitted (`style_count = 1`), but the run
does not finish with a success message: the first progress checkpoint
divides by `1 // 200 = 0`, so the queue receives exactly one
`ZeroDivisionError` error message and no file is saved. -/
theorem run_red_1x1_zero_div :
    quantize_color (255, 0, 0) 5 = (248, 0, 0) ∧
    (conversion_worker 5 "red_pixel.xlsx" ⟨1, 1, fun _ _ => (255, 0, 0)⟩).style_count = 1 ∧
    (conversion_worker 5 "red_pixel.xlsx" ⟨1, 1, fun _ _ => (255, 0, 0)⟩).cache
      = [("FFF80000", mkFill "FFF80000")] ∧
    succCount (conversion_worker 5 "red_pixel.xlsx" ⟨1, 1, fun _ _ => (255, 0, 0)⟩).msgs = 0 ∧
    (conversion_worker 5 "red_pixel.xlsx" ⟨1, 1, fun _ _ => (255, 0, 0)⟩).msgs
      = [Msg.error zeroDivText] ∧
    (conversion_worker 5 "red_pixel.xlsx" ⟨1, 1, fun _ _ => (255, 0, 0)⟩).saved = none := by
  exact ⟨by decide, by decide, by decide, by decide, by decide, by decide⟩
